import Mathlib

/-!
Verification development for the spindle detection-and-measurement core of
`src/curveFitData.py` (mitotic-spindle-tool).

Conventions of the shallow embedding:
* An image grid is a function `Nat → Nat → Nat` (row, column ↦ intensity)
  together with explicit dimensions `h` (rows) and `w` (columns); the binary
  mask produced by thresholding is a grid whose entries are expected in {0,1}.
* A foreground point is stored as `(x, y) = (column, row)` with integer
  coordinates, mirroring the paired lists `xCoords`/`yCoords` of the source
  class `thresholdObject`; a threshold object is modelled as its point list in
  append order (`numPoints` in the source is always the list length, since the
  constructor stores one point and every `addPoint` appends one and increments
  the counter).
* Exact rational arithmetic (`ℚ`) models the float arithmetic of the discrete
  pipeline stages; real arithmetic (`ℝ`) models the measurement scalars.
* Python runtime failures that the source can actually raise on these code
  paths are modelled by `Except PyErr`.
* The `while` loops of the consolidation pass are written with an explicit
  iteration budget (`fuel`) so that they are structurally recursive and reduce
  inside the kernel; the budgets used are proven sufficient (and the results
  fuel-independent) by the `onePassF_fuel` / `consolidateLoopF_fuel` theorems
  below, so the definitions denote exactly the loops of the source.
-/

/-- Runtime errors reachable in the embedded code paths of `curveFitData.py`. -/
inductive PyErr where
  /-- `ValueError: too many values to unpack` — a 3-tuple assigned to 2 names. -/
  | valueErrorUnpack : PyErr
  /-- `UnboundLocalError` — reading `centerObj` when no loop iteration assigned it. -/
  | unboundLocalError : PyErr
  /-- `IndexError` — `tObjects[0]` on an empty list. -/
  | indexError : PyErr
deriving DecidableEq, Repr

/-- A foreground point `(x, y) = (column, row)`, as stored in
`thresholdObject.xCoords` / `thresholdObject.yCoords`. -/
abbrev Point : Type := ℤ × ℤ

/-! ## Point Extractor (source lines 242-269)

`totalPoints = int(npsum(threshArr))`, then `c2`/`r2` are preallocated with
`totalPoints` zero entries and filled at every cell with value exactly `1`,
scanning rows then columns.  For a non-binary mask the trailing entries stay
`(0, 0)`; `paddedPoints` reproduces this. -/

/-- Sum of all mask entries: `int(npsum(threshArr))` (source line 249). -/
def totalPoints (h w : Nat) (mask : Nat → Nat → Nat) : Nat :=
  ((List.range h).map (fun r => ((List.range w).map (fun c => mask r c)).sum)).sum

/-- The foreground coordinates collected by the row-major scan that fills
`r2`/`c2` (source lines 257-262): cells with `threshArr[r,c] == 1`. -/
def collectPoints (h w : Nat) (mask : Nat → Nat → Nat) : List Point :=
  ((List.range h).map (fun r =>
      (List.range w).filterMap (fun c =>
        if mask r c = 1 then some ((c : ℤ), (r : ℤ)) else none))).flatten

/-- The full preallocated point vectors of length `totalPoints`: collected
points followed by the untouched zero entries (source lines 252-253). -/
def paddedPoints (h w : Nat) (mask : Nat → Nat → Nat) : List Point :=
  collectPoints h w mask ++
    List.replicate (totalPoints h w mask - (collectPoints h w mask).length) ((0 : ℤ), (0 : ℤ))

/-! ## Cluster Builder: clustering pass (source lines 271-303) -/

/-- Neighbour test of the clustering pass (source lines 290-291):
`abs(xCoords[j] - c2[i]) <= 2 and abs(yCoords[j] - r2[i]) <= 2`,
where `p` is the new point and `q` a stored member. -/
def closePt2 (p q : Point) : Bool :=
  decide ((q.1 - p.1).natAbs ≤ 2 ∧ (q.2 - p.2).natAbs ≤ 2)

/-- Whether an object accepts a new point: the source scans member points from
the most recently added (`j = len - 1`) down to the first, stopping at the
first neighbour; the loop's net effect is an existence test over the members,
scanned here in the same reversed order. -/
def objectAccepts (obj : List Point) (p : Point) : Bool :=
  obj.reverse.any (fun q => closePt2 p q)

/-- One iteration of the point loop (source lines 277-303): the point joins the
first object (objects in creation order) that accepts it, appended at the end
of that object's point list; if no object accepts it, a new singleton object is
appended at the end of the object list. -/
def addPointToObjects : List (List Point) → Point → List (List Point)
  | [], p => [[p]]
  | o :: os, p =>
    if objectAccepts o p then (o ++ [p]) :: os
    else o :: addPointToObjects os p

/-- The whole clustering pass: the object list is seeded with a singleton
holding the first point (source line 274) and then every point — including the
first one again — is processed in scan order (source `for i in range(0, len(c2))`). -/
def buildObjects (pts : List Point) : List (List Point) :=
  match pts with
  | [] => []
  | p0 :: _ => pts.foldl addPointToObjects [[p0]]

/-! ## Cluster Builder: consolidation pass (source lines 305-344) -/

/-- Proximity test of the consolidation pass (source lines 329-334): some point
of `o1` (scanned from the last stored point downwards) and some point of `o2`
satisfy `abs(Δx) < 10 and abs(Δy) < 10`; the vectorized comparison against all
of `o2` makes this an existence test over point pairs. -/
def touches10 (o1 o2 : List Point) : Bool :=
  o1.reverse.any (fun p => o2.any (fun q =>
    decide ((q.1 - p.1).natAbs < 10 ∧ (q.2 - p.2).natAbs < 10)))

/-- The inner `o2` loop for a fixed `o1` object `c` (source lines 324-343),
scanning the objects after it.  On a merge the source pops index `o2` and then
still increments `o2`, so the object that slides into the popped slot is kept
but skipped for the rest of this scan; `c` grows by the absorbed points
(`addPoints` appends them in stored order) and later comparisons use the grown
`c`.  Returns the grown object and the kept tail in order. -/
def scanMerge : List Point → List (List Point) → List Point × List (List Point)
  | c, [] => (c, [])
  | c, o2 :: rest =>
    if touches10 c o2 then
      match rest with
      | [] => (c ++ o2, [])
      | o3 :: rest' =>
        let r := scanMerge (c ++ o2) rest'
        (r.1, o3 :: r.2)
    else
      let r := scanMerge c rest
      (r.1, o2 :: r.2)

/-- The `o1` sweep with an explicit iteration budget: each position in turn
plays the role of `o1`, scanning and possibly absorbing the objects after it.
One budget unit is spent per `o1` position. -/
def onePassF : Nat → List (List Point) → List (List Point)
  | 0, l => l
  | _, [] => []
  | f + 1, c :: rest => (scanMerge c rest).1 :: onePassF f (scanMerge c rest).2

/-- One full `o1` sweep (source lines 320-344).  The sweep visits at most one
`o1` position per object, so `l.length` budget units always suffice
(`onePassF_fuel` below proves the budget irrelevant from this value up). -/
def onePass (l : List (List Point)) : List (List Point) :=
  onePassF l.length l

/-- The fixed-point loop with an explicit iteration budget: passes repeat until
one complete pass leaves the object count unchanged (a pass changes the list
only by merges, each of which removes one object). -/
def consolidateLoopF : Nat → List (List Point) → List (List Point)
  | 0, l => l
  | f + 1, l =>
    if (onePass l).length = l.length then onePass l
    else consolidateLoopF f (onePass l)

/-- The `while startLength != len(tObjects)` loop (source lines 313-344).
Every pass except the last strictly decreases the object count, so at most
`l.length + 1` passes run (`consolidateLoopF_fuel` below proves the budget
irrelevant from this value up). -/
def consolidateLoop (l : List (List Point)) : List (List Point) :=
  consolidateLoopF (l.length + 1) l

/-- The sort of source line 311: `tObjects.sort(reverse=True)` with `__lt__`
comparing `numPoints` is a stable sort by descending point count.  A stable
sort is extensionally determined by its key (the output is the unique
permutation that is sorted and keeps the original order of equal keys), so the
structural insertion sort used here produces exactly the list Python's stable
sort produces. -/
def sortByCountDesc (objs : List (List Point)) : List (List Point) :=
  List.insertionSort (fun a b => b.length ≤ a.length) objs

/-- The whole consolidation stage: stable sort by descending point count, then
the fixed-point merge loop. -/
def consolidate (objs : List (List Point)) : List (List Point) :=
  consolidateLoop (sortByCountDesc objs)

/-! ## Centroid (source lines 346-357)

The source accumulates `mass`, `xsum`, `ysum` in 64-bit machine scalars
(starting from `uint64(0)`), so each accumulation step is reduced modulo
`2^64`; the embedding keeps the per-step reduction.  (With exact arithmetic the
accumulated values stay below `2^64` — the regime of the centroid theorems —
and the numpy promotions of mixed 64-bit scalar operations are also exact
there.)  The final `xsum/mass` is numpy true division, modelled exactly in
`ℚ` (division by a zero mass, which numpy turns into a warning plus a
non-finite float, is the junk value `0` here; the centroid theorems assume a
positive mass).  Cluster coordinates originate from the grid scan and are
nonnegative, hence the `Int.toNat` reads. -/

/-- Intensity of the original image at a stored point: `imageArr[yC, xC]`. -/
def lookupI (img : Nat → Nat → Nat) (p : Point) : Nat :=
  img p.2.toNat p.1.toNat

/-- Intensity-weighted centre of mass of one object (source lines 348-357),
returned as `(xsum/mass, ysum/mass)` like `tObjects[o].com = [xsum/mass, ysum/mass]`. -/
def comOf (img : Nat → Nat → Nat) (pts : List Point) : ℚ × ℚ :=
  let mass := pts.foldl (fun s p => (s + lookupI img p) % 2 ^ 64) 0
  let xsum := pts.foldl (fun s p => (s + lookupI img p * p.1.toNat) % 2 ^ 64) 0
  let ysum := pts.foldl (fun s p => (s + lookupI img p * p.2.toNat) % 2 ^ 64) 0
  ((xsum : ℚ) / (mass : ℚ), (ysum : ℚ) / (mass : ℚ))

/-! ## Spindle selection (source lines 359-378) -/

/-- An object together with its computed centre of mass. -/
structure TObj where
  pts : List Point
  com : ℚ × ℚ
deriving DecidableEq, Repr

/-- Squared Euclidean distance.  The source compares `norm(center - com)` (a
nonnegative square root) against `minDist`, whose initial value
`len(threshArr[0])` (= the image width) and later values (previous norms) are
nonnegative, so every comparison in the loop is equivalent to the same
comparison of squares; the embedding carries the squares. -/
def dist2 (a b : ℚ × ℚ) : ℚ :=
  (a.1 - b.1) ^ 2 + (a.2 - b.2) ^ 2

/-- `avgObjectSize = npmean(numPointsArr)` (source lines 364-365). -/
def meanSize (objs : List TObj) : ℚ :=
  (objs.map (fun o => (o.pts.length : ℚ))).sum / (objs.length : ℚ)

/-- `xcen = len(threshArr[0]) / 2; ycen = len(threshArr) / 2` (source lines 360-361). -/
def imgCen (w h : Nat) : ℚ × ℚ :=
  ((w : ℚ) / 2, (h : ℚ) / 2)

/-- The body of the selection loop (source lines 368-374): the state is the
running `minDist` (squared) plus the contents of `centerObj` (`none` while the
variable is still unassigned); an object strictly closer than `minDist` AND
strictly larger than the mean overwrites both. -/
def selStep (cen : ℚ × ℚ) (avg : ℚ) (st : ℚ × Option TObj) (o : TObj) : ℚ × Option TObj :=
  if dist2 cen o.com < st.1 ∧ avg < (o.pts.length : ℚ) then (dist2 cen o.com, some o)
  else st

/-- The automatic spindle selection (source lines 359-378).  With more than one
object the loop runs with `minDist` initialised to the image width (squared
here); if it never assigns `centerObj`, reading `tObjects[centerObj]` raises
`UnboundLocalError`.  With one object (or none — unreachable from the
pipeline), `tObjects[0]` is taken. -/
def selectSpindle (w h : Nat) (objs : List TObj) : Except PyErr TObj :=
  if 1 < objs.length then
    match (objs.foldl (selStep (imgCen w h) (meanSize objs)) (((w : ℚ) ^ 2, none))).2 with
    | some o => .ok o
    | none => .error .unboundLocalError
  else
    match objs with
    | o :: _ => .ok o
    | [] => .error .indexError

/-! ## `getSpindleImg` (source lines 240-417)

After selection the source builds the spindle-only raster, computes the inertia
tensor, eigen-decomposes it, and rotates the raster (lines 380-408).  Those
steps are total numerical computations (LAPACK `eig` on a real symmetric 2×2
matrix and `scipy.ndimage.rotate` do not raise, and a zero `mainvector[1]`
only yields a numpy warning), so they cannot change which `return` statement
runs; the embedding records the *shape* of the returned tuple, which is what
every caller in the repository consumes.  The empty-mask branch (lines
265-267) returns the 2-tuple `(threshXArr(), False)`; the final branch (line
417) returns the 3-tuple `(rotImg, True, transformInfo)` — the rotated raster
and the rotation angle are produced by the unmodelled numeric tail and no
theorem below depends on them. -/

/-- The data of the `transformInfo` dictionary built at source lines 410-415
that the embedding tracks (`com` and the pre-rotation centre). -/
structure TransformData where
  comX : ℚ
  comY : ℚ
  xcen : ℚ
  ycen : ℚ
deriving DecidableEq, Repr

/-- Shape of the value returned by `getSpindleImg`: a 2-tuple
`(threshXArr(), False)` or a 3-tuple `(rotImg, True, transformInfo)`. -/
inductive GRes where
  | two : GRes
  | three (t : TransformData) : GRes
deriving DecidableEq, Repr

/-- The embedded `getSpindleImg` (source lines 240-417): point extraction,
empty-mask early return, clustering, consolidation, centres of mass, and
spindle selection, ending in the 3-tuple return. -/
def getSpindleImg (h w : Nat) (img mask : Nat → Nat → Nat) : Except PyErr GRes :=
  if totalPoints h w mask = 0 then .ok .two
  else
    let objs := consolidate (buildObjects (paddedPoints h w mask))
    let withCom := objs.map (fun o => TObj.mk o (comOf img o))
    match selectSpindle w h withCom with
    | .error e => .error e
    | .ok sel => .ok (.three ⟨sel.com.1, sel.com.2, (w : ℚ) / 2, (h : ℚ) / 2⟩)

/-! ## `spindleMeasurements` (source lines 419-492)

Source line 420 is `spindleArray, doesSpindleExist = getSpindleImg(imageArr,
threshArr)`: a 2-name unpacking.  When `getSpindleImg` returns its 2-tuple the
unpacking succeeds and `doesSpindleExist` is `False` (the 2-tuple branch always
carries `False`), so the function returns `((0.0, 0.0, 0.0, 0.0, 0.0), False)`
at lines 423-424; the curve-fitting stage (lines 427-492) is unreachable and
is therefore not part of the embedding.  When `getSpindleImg` returns its
3-tuple the unpacking raises `ValueError: too many values to unpack`. -/

/-- The five-scalar Measurement Record `(poleSeparation, arcLength, areaCurve,
maxCurve, avgCurve)`. -/
abbrev Meas : Type := ℝ × ℝ × ℝ × ℝ × ℝ

/-- The embedded `spindleMeasurements` (source lines 419-492). -/
def spindleMeasurements (h w : Nat) (img mask : Nat → Nat → Nat) :
    Except PyErr (Meas × Bool) :=
  match getSpindleImg h w img mask with
  | .error e => .error e
  | .ok .two => .ok ((0.0, 0.0, 0.0, 0.0, 0.0), false)
  | .ok (.three _) => .error .valueErrorUnpack

/-! ## `spindleMeasurementsManual` (source lines 532-631)

The function first computes `poleSeparation` (Euclidean distance of the two
supplied poles) and `arcLength = poleSeparation`, and only then calls
`getSpindleImg` (line 548) with the same 2-name unpacking, *outside* the
`try` block that starts at line 553.  Hence for a mask with foreground points
the 3-tuple return makes line 548 raise an uncaught `ValueError`, and for an
empty mask the function returns `[0.0, 0.0, 0.0, 0.0, 0.0], False` at line
551, discarding the computed pole separation.  No reachable path returns the
computed `poleSeparation`, so the later measurement code (lines 553-631) is
unreachable and not modelled. -/

/-- The embedded `spindleMeasurementsManual` (source lines 532-631). -/
noncomputable def spindleMeasurementsManual (h w : Nat) (img mask : Nat → Nat → Nat)
    (leftPole rightPole : ℝ × ℝ) : Except PyErr (Meas × Bool) :=
  let poleSeparation : ℝ :=
    Real.sqrt ((rightPole.1 - leftPole.1) ^ 2 + (rightPole.2 - leftPole.2) ^ 2)
  let arcLength : ℝ := poleSeparation
  match getSpindleImg h w img mask with
  | .error e => .error e
  | .ok .two => .ok ((0.0, 0.0, 0.0, 0.0, 0.0), false)
  | .ok (.three _) => .error .valueErrorUnpack

/-! ## Coordinate Back-Mapper (source lines 15-55) -/

/-- The `transformInfo` dictionary consumed by
`transformCoordinatesBackToOriginal`: the original-space centre of mass, the
rotation angle in degrees, and the pre-rotation image centre. -/
structure TransformInfo where
  com : ℝ × ℝ
  rotAngle : ℝ
  processed_center_x : ℝ
  processed_center_y : ℝ

/-- The embedded `transformCoordinatesBackToOriginal` (source lines 15-55);
`none` models passing `None` for `transformInfo` (lines 26-27). -/
noncomputable def transformCoordinatesBackToOriginal
    (rotatedCoords : ℝ × ℝ) (transformInfo : Option TransformInfo) : ℝ × ℝ :=
  match transformInfo with
  | none => rotatedCoords
  | some t =>
    let angle_rad : ℝ := t.rotAngle * Real.pi / 180
    let centered_x : ℝ := rotatedCoords.1 - t.processed_center_x
    let centered_y : ℝ := rotatedCoords.2 - t.processed_center_y
    let cos_angle : ℝ := Real.cos (-angle_rad)
    let sin_angle : ℝ := Real.sin (-angle_rad)
    let unrotated_x : ℝ := centered_x * cos_angle - centered_y * sin_angle
    let unrotated_y : ℝ := centered_x * sin_angle + centered_y * cos_angle
    (unrotated_x + t.com.1, unrotated_y + t.com.2)

/-- Modelled from the spec: the forward transform of the Axis Aligner is not a
named function in the source (it is implicit in the rotation applied at source
line 408); section 4.7 of the spec defines the back-mapper as its exact
inverse, so the forward map translates by subtracting `com`, rotates by
`+rotAngle` (degrees), and translates by adding the pre-rotation centre. -/
noncomputable def forwardTransform (p : ℝ × ℝ) (t : TransformInfo) : ℝ × ℝ :=
  let angle_rad : ℝ := t.rotAngle * Real.pi / 180
  let cx : ℝ := p.1 - t.com.1
  let cy : ℝ := p.2 - t.com.2
  (cx * Real.cos angle_rad - cy * Real.sin angle_rad + t.processed_center_x,
   cx * Real.sin angle_rad + cy * Real.cos angle_rad + t.processed_center_y)

/-! ## Plain (unreduced) centroid sums, used to state the centroid theorems -/

/-- The exact (unreduced) total intensity of an object. -/
def massPlain (img : Nat → Nat → Nat) (pts : List Point) : Nat :=
  (pts.map (fun p => lookupI img p)).sum

/-- The exact (unreduced) intensity-weighted column sum of an object. -/
def xsumPlain (img : Nat → Nat → Nat) (pts : List Point) : Nat :=
  (pts.map (fun p => lookupI img p * p.1.toNat)).sum

/-- The exact (unreduced) intensity-weighted row sum of an object. -/
def ysumPlain (img : Nat → Nat → Nat) (pts : List Point) : Nat :=
  (pts.map (fun p => lookupI img p * p.2.toNat)).sum

/-! ## Concrete inputs used by witnesses and counterexamples -/

/-- Mask of the spec's scenario: a horizontal 1-pixel-thick line at row 50
from column 10 to column 90 on a 100×100 grid. -/
def lineMask : Nat → Nat → Nat :=
  fun r c => if r = 50 ∧ 10 ≤ c ∧ c ≤ 90 then 1 else 0

/-- Intensity image of the spec's scenario: uniform intensity 1000 on the line. -/
def lineImg : Nat → Nat → Nat :=
  fun r c => if r = 50 ∧ 10 ≤ c ∧ c ≤ 90 then 1000 else 0

/-- A degenerate mask: exactly two foreground points, both in column 2
(fewer than 3 points and fewer than 3 distinct x-values). -/
def degMask : Nat → Nat → Nat :=
  fun r c => if (r = 1 ∨ r = 2) ∧ c = 2 then 1 else 0

/-- A constant intensity image. -/
def flatImg7 : Nat → Nat → Nat :=
  fun _ _ => 7

/-- Mask on a tall 100-row × 10-column grid: a 3-point object in column 5 at
rows 95-97 (centroid far from the image centre) and a single point at
(column 5, row 50). -/
def tallMask : Nat → Nat → Nat :=
  fun r c => if c = 5 ∧ (r = 50 ∨ r = 95 ∨ r = 96 ∨ r = 97) then 1 else 0

/-- Uniform intensity 1000 on the foreground of `tallMask`. -/
def tallImg : Nat → Nat → Nat :=
  fun r c => if c = 5 ∧ (r = 50 ∨ r = 95 ∨ r = 96 ∨ r = 97) then 1000 else 0

/-- A three-point object at the centre of a 10×100 image. -/
def bigObj : TObj := ⟨[(0, 0), (0, 1), (0, 2)], (5, 50)⟩

/-- A one-point object away from the centre of a 10×100 image. -/
def smallObj : TObj := ⟨[(9, 9)], (0, 0)⟩

/-! ## Budget sufficiency for the loop embeddings -/

theorem scanMerge_snd_length (c : List Point) (l : List (List Point)) :
    (scanMerge c l).2.length ≤ l.length := by
  induction c, l using scanMerge.induct with
  | case1 c => simp [scanMerge]
  | case2 c o2 h => simp [scanMerge, h]
  | case3 c o2 h o3 rest' ih =>
    simp only [scanMerge, h, if_true, List.length_cons]
    exact Nat.succ_le_succ (Nat.le_succ_of_le ih)
  | case4 c o2 rest h ih =>
    rw [scanMerge.eq_def]
    simp only [h]
    cases rest with
    | nil => simp [scanMerge]
    | cons a l => simpa using ih

/-- The result of the `o1` sweep does not depend on the iteration budget once
the budget reaches the object count, so `onePass` denotes the unbounded loop. -/
theorem onePassF_fuel (f₁ f₂ : Nat) (l : List (List Point))
    (h₁ : l.length ≤ f₁) (h₂ : l.length ≤ f₂) : onePassF f₁ l = onePassF f₂ l := by
  induction f₁ generalizing f₂ l with
  | zero =>
    have : l = [] := List.length_eq_zero.mp (Nat.le_zero.mp h₁)
    subst this
    cases f₂ <;> rfl
  | succ f₁ ih =>
    cases l with
    | nil => cases f₂ <;> rfl
    | cons c rest =>
      cases f₂ with
      | zero => exact absurd h₂ (by simp)
      | succ f₂ =>
        simp only [onePassF]
        rw [ih _ _ (Nat.le_trans (scanMerge_snd_length c rest) (Nat.le_of_succ_le_succ h₁))
          (Nat.le_trans (scanMerge_snd_length c rest) (Nat.le_of_succ_le_succ h₂))]

theorem onePassF_length_le (f : Nat) (l : List (List Point)) :
    (onePassF f l).length ≤ l.length := by
  induction f generalizing l with
  | zero => simp [onePassF]
  | succ f ih =>
    cases l with
    | nil => simp [onePassF]
    | cons c rest =>
      simp only [onePassF, List.length_cons]
      exact Nat.succ_le_succ
        (Nat.le_trans (ih (scanMerge c rest).2) (scanMerge_snd_length c rest))

theorem onePass_length_le (l : List (List Point)) : (onePass l).length ≤ l.length :=
  onePassF_length_le l.length l

/-- The result of the pass loop does not depend on the iteration budget once
the budget exceeds the object count, so `consolidateLoop` denotes the
unbounded `while` loop. -/
theorem consolidateLoopF_fuel (f₁ f₂ : Nat) (l : List (List Point))
    (h₁ : l.length < f₁) (h₂ : l.length < f₂) :
    consolidateLoopF f₁ l = consolidateLoopF f₂ l := by
  induction f₁ generalizing f₂ l with
  | zero => exact absurd h₁ (Nat.not_lt_zero _)
  | succ f₁ ih =>
    cases f₂ with
    | zero => exact absurd h₂ (Nat.not_lt_zero _)
    | succ f₂ =>
      simp only [consolidateLoopF]
      by_cases hl : (onePass l).length = l.length
      · simp [hl]
      · have hlt : (onePass l).length < l.length :=
          Nat.lt_of_le_of_ne (onePass_length_le l) hl
        rw [if_neg hl, if_neg hl,
          ih _ _ (Nat.lt_of_lt_of_le hlt (Nat.le_of_succ_le_succ h₁))
            (Nat.lt_of_lt_of_le hlt (Nat.le_of_succ_le_succ h₂))]

/-! ## Claim C10 -/

/-- C10: when the transform record passed to the coordinate back-mapper is
`None`, `transformCoordinatesBackToOriginal` returns its input coordinates
unchanged, for every input point (source lines 26-27). -/
theorem claim_C10_none_identity (p : ℝ × ℝ) :
    transformCoordinatesBackToOriginal p none = p := rfl

/-! ## Claim C5 -/

/-- C5: the back-mapper translates by subtracting the pre-rotation centre,
rotates by `-rotAngle`, then translates by adding `com`; composed with the
forward transform it returns the input point exactly (hence in particular
within the spec's tolerance of `1e-6`), for every point and every transform
record. -/
theorem claim_C5_roundtrip (p : ℝ × ℝ) (t : TransformInfo) :
    transformCoordinatesBackToOriginal (forwardTransform p t) (some t) = p := by
  obtain ⟨x, y⟩ := p
  have hsc := Real.sin_sq_add_cos_sq (t.rotAngle * Real.pi / 180)
  simp only [transformCoordinatesBackToOriginal, forwardTransform,
    Real.cos_neg, Real.sin_neg, Prod.mk.injEq]
  constructor
  · linear_combination (x - t.com.1) * hsc
  · linear_combination (y - t.com.2) * hsc

/-! ## Claim C2 -/

/-- C2: for every mask with no foreground points, `spindleMeasurements`
returns `exists = false` and all five measurements equal to `0.0`, skipping
all downstream stages (source lines 264-267 and 419-424). -/
theorem claim_C2_empty_mask_zeros (h w : Nat) (img mask : Nat → Nat → Nat)
    (hz : ∀ r, r < h → ∀ c, c < w → mask r c = 0) :
    spindleMeasurements h w img mask = .ok ((0.0, 0.0, 0.0, 0.0, 0.0), false) := by
  have ht : totalPoints h w mask = 0 := by
    unfold totalPoints
    apply List.sum_eq_zero
    intro x hx
    simp only [List.mem_map] at hx
    obtain ⟨r, hr, rfl⟩ := hx
    apply List.sum_eq_zero
    intro y hy
    simp only [List.mem_map] at hy
    obtain ⟨c, hc, rfl⟩ := hy
    exact hz r (List.mem_range.mp hr) c (List.mem_range.mp hc)
  simp [spindleMeasurements, getSpindleImg, ht]

/-- Witness for C2 at the all-zero 4×4 mask. -/
theorem claim_C2_witness :
    spindleMeasurements 4 4 (fun _ _ => 0) (fun _ _ => 0) =
      .ok ((0.0, 0.0, 0.0, 0.0, 0.0), false) :=
  claim_C2_empty_mask_zeros 4 4 (fun _ _ => 0) (fun _ _ => 0)
    (fun _ _ _ _ => rfl)

/-! ## Claim C1 -/

set_option maxRecDepth 40000

/-- C1 (divergence witness): on the spec's scenario — a horizontal
1-pixel-thick foreground line from column 10 to 90 at row 50 with uniform
intensity 1000 on a 100×100 grid — `spindleMeasurements` does not return
`exists = true` with the five measurements: it fails with the `ValueError`
raised when the 3-tuple returned at source line 417 is unpacked into the two
names of source line 420. -/
theorem claim_C1_line_mask_unpack_failure :
    spindleMeasurements 100 100 lineImg lineMask = .error .valueErrorUnpack := by
  rfl

/-! ## Claim C3 -/

/-- C3 (divergence witness): the manual-override measurement with poles
`(10,50)` and `(90,60)` on the non-empty line mask does not return the pole
separation `sqrt(80^2+10^2)`: the call to `getSpindleImg` at source line 548
(outside the `try` block) raises the same unpacking `ValueError`, so the
already-computed pole separation is never returned. -/
theorem claim_C3_manual_unpack_failure :
    spindleMeasurementsManual 100 100 lineImg lineMask ((10 : ℝ), (50 : ℝ)) ((90 : ℝ), (60 : ℝ)) =
      .error .valueErrorUnpack := by
  rfl

/-! ## Claim C4 -/

/-- C4 counterexample: on a degenerate sample set (two foreground points in a
single column: fewer than 3 points and fewer than 3 distinct x-values) the
measurement neither surfaces a fit error as a "no structure" result (the
all-zero record with `exists = false`) nor returns a quadratic: it fails with
the unpacking `ValueError`, raised before any fit is attempted. -/
theorem claim_C4_counterexample :
    spindleMeasurements 5 5 flatImg7 degMask = .error .valueErrorUnpack ∧
    spindleMeasurements 5 5 flatImg7 degMask ≠ .ok ((0.0, 0.0, 0.0, 0.0, 0.0), false) := by
  have h1 : spindleMeasurements 5 5 flatImg7 degMask = .error .valueErrorUnpack := rfl
  exact ⟨h1, fun hc => Except.noConfusion (h1.symm.trans hc)⟩

/-- C4 amended: for every mask with at least one foreground point — hence in
particular for every degenerate sample configuration — `spindleMeasurements`
fails with an uncaught runtime error (the `getSpindleImg` return-arity
mismatch, or the selection `UnboundLocalError`) before any quadratic fit runs;
no `DegenerateFit`/`FitError` exists in the code, and no spurious quadratic is
returned. -/
theorem claim_C4_nonempty_mask_always_fails (h w : Nat) (img mask : Nat → Nat → Nat)
    (ht : totalPoints h w mask ≠ 0) :
    ∃ e, spindleMeasurements h w img mask = .error e := by
  unfold spindleMeasurements getSpindleImg
  rw [if_neg ht]
  cases hsel : selectSpindle w h ((consolidate (buildObjects (paddedPoints h w mask))).map
      (fun o => TObj.mk o (comOf img o))) with
  | error e => exact ⟨e, by simp [hsel]⟩
  | ok sel => exact ⟨.valueErrorUnpack, by simp [hsel]⟩

/-- Witness for the amended C4 at a concrete degenerate mask. -/
theorem claim_C4_witness :
    totalPoints 5 5 degMask ≠ 0 ∧ ∃ e, spindleMeasurements 5 5 flatImg7 degMask = .error e :=
  ⟨by decide, claim_C4_nonempty_mask_always_fails 5 5 flatImg7 degMask (by decide)⟩

/-! ## Claim C7 -/

/-- C7: in the clustering pass (points processed in scan order by
`buildObjects`), a point joins the first object — objects examined in creation
order, members scanned from most-recently-added to earliest — that has some
member within `|Δrow| ≤ 2 AND |Δcolumn| ≤ 2` of it, and starts a new singleton
object (appended at the end) when no object accepts it.  Part 1: acceptance is
exactly the existence of such a member; part 2: with all objects before `c`
rejecting and `c` accepting, the point is appended to `c`; part 3: with every
object rejecting, a new singleton is appended. -/
theorem claim_C7_clustering_join_rule :
    (∀ (o : List Point) (p : Point),
      objectAccepts o p = true ↔ ∃ q ∈ o, (q.1 - p.1).natAbs ≤ 2 ∧ (q.2 - p.2).natAbs ≤ 2)
    ∧ (∀ (pre : List (List Point)) (c : List Point) (post : List (List Point)) (p : Point),
      (∀ o ∈ pre, objectAccepts o p = false) → objectAccepts c p = true →
      addPointToObjects (pre ++ c :: post) p = pre ++ (c ++ [p]) :: post)
    ∧ (∀ (objs : List (List Point)) (p : Point),
      (∀ o ∈ objs, objectAccepts o p = false) →
      addPointToObjects objs p = objs ++ [[p]]) := by
  refine ⟨?_, ?_, ?_⟩
  · intro o p
    simp [objectAccepts, closePt2, List.any_eq_true, List.mem_reverse]
  · intro pre
    induction pre with
    | nil =>
      intro c post p _ hacc
      simp [addPointToObjects, hacc]
    | cons o pre' ih =>
      intro c post p hpre hacc
      have ho : objectAccepts o p = false := hpre o (List.mem_cons_self o pre')
      have ih' := ih c post p (fun o' ho' => hpre o' (List.mem_cons_of_mem o ho')) hacc
      simp only [List.cons_append, addPointToObjects, ho, Bool.false_eq_true, if_false]
      exact congrArg (o :: .) ih'
  · intro objs p
    induction objs with
    | nil => intro _; rfl
    | cons o objs' ih =>
      intro hall
      have ho : objectAccepts o p = false := hall o (List.mem_cons_self o objs')
      simp only [addPointToObjects, ho, Bool.false_eq_true, if_false]
      exact congrArg (o :: .) (ih (fun o' ho' => hall o' (List.mem_cons_of_mem o ho')))

/-- Witness for C7: the point `(6,6)` skips the non-accepting first object and
joins the second; the point `(0,0)` is rejected by every object and starts a
new singleton at the end. -/
theorem claim_C7_witness :
    addPointToObjects [[((100 : ℤ), (100 : ℤ))], [((5 : ℤ), (5 : ℤ))], [((20 : ℤ), (20 : ℤ))]]
        ((6 : ℤ), (6 : ℤ)) =
      [[((100 : ℤ), (100 : ℤ))], [((5 : ℤ), (5 : ℤ)), ((6 : ℤ), (6 : ℤ))],
        [((20 : ℤ), (20 : ℤ))]] ∧
    addPointToObjects [[((100 : ℤ), (100 : ℤ))]] ((0 : ℤ), (0 : ℤ)) =
      [[((100 : ℤ), (100 : ℤ))], [((0 : ℤ), (0 : ℤ))]] :=
  ⟨claim_C7_clustering_join_rule.2.1 [[((100 : ℤ), (100 : ℤ))]] [((5 : ℤ), (5 : ℤ))]
      [[((20 : ℤ), (20 : ℤ))]] ((6 : ℤ), (6 : ℤ)) (by decide) (by decide),
    claim_C7_clustering_join_rule.2.2 [[((100 : ℤ), (100 : ℤ))]] ((0 : ℤ), (0 : ℤ)) (by decide)⟩

/-! ## Claim C8 -/

theorem foldlModAdd (f : Point → Nat) (pts : List Point) :
    ∀ s : Nat, pts.foldl (fun acc p => (acc + f p) % 2 ^ 64) (s % 2 ^ 64) =
      (s + (pts.map f).sum) % 2 ^ 64 := by
  induction pts with
  | nil => intro s; simp
  | cons p pts ih =>
    intro s
    simp only [List.foldl_cons, List.map_cons, List.sum_cons]
    rw [Nat.mod_add_mod, ih (s + f p), Nat.add_assoc]

theorem foldlModAdd_zero (f : Point → Nat) (pts : List Point) :
    pts.foldl (fun acc p => (acc + f p) % 2 ^ 64) 0 = (pts.map f).sum % 2 ^ 64 := by
  have h := foldlModAdd f pts 0
  simpa using h

/-- The per-step 64-bit accumulation of `comOf` computes the exact sums as long
as they stay below `2^64`. -/
theorem comOf_formula (img : Nat → Nat → Nat) (pts : List Point)
    (hm : massPlain img pts < 2 ^ 64) (hx : xsumPlain img pts < 2 ^ 64)
    (hy : ysumPlain img pts < 2 ^ 64) :
    comOf img pts =
      ((xsumPlain img pts : ℚ) / (massPlain img pts : ℚ),
       (ysumPlain img pts : ℚ) / (massPlain img pts : ℚ)) := by
  simp only [comOf]
  rw [foldlModAdd_zero (fun p => lookupI img p) pts,
    foldlModAdd_zero (fun p => lookupI img p * p.1.toNat) pts,
    foldlModAdd_zero (fun p => lookupI img p * p.2.toNat) pts]
  rw [show (pts.map (fun p => lookupI img p)).sum = massPlain img pts from rfl,
    show (pts.map (fun p => lookupI img p * p.1.toNat)).sum = xsumPlain img pts from rfl,
    show (pts.map (fun p => lookupI img p * p.2.toNat)).sum = ysumPlain img pts from rfl,
    Nat.mod_eq_of_lt hm, Nat.mod_eq_of_lt hx, Nat.mod_eq_of_lt hy]

/-- C8: for each object, the computed centroid equals
`(Σ I(p)·col(p), Σ I(p)·row(p)) / Σ I(p)` over its member points (with `I` the
original intensity image), in the exact regime where the machine accumulators
do not wrap and the mass is positive; and for an object whose members all have
the same positive intensity, the centroid is the unweighted arithmetic mean of
the member coordinates. -/
theorem claim_C8_centroid :
    (∀ (img : Nat → Nat → Nat) (pts : List Point),
      massPlain img pts < 2 ^ 64 → xsumPlain img pts < 2 ^ 64 → ysumPlain img pts < 2 ^ 64 →
      0 < massPlain img pts →
      comOf img pts =
        ((xsumPlain img pts : ℚ) / (massPlain img pts : ℚ),
         (ysumPlain img pts : ℚ) / (massPlain img pts : ℚ)))
    ∧ (∀ (img : Nat → Nat → Nat) (pts : List Point) (I0 : Nat),
      (∀ p ∈ pts, lookupI img p = I0) → 0 < I0 →
      massPlain img pts < 2 ^ 64 → xsumPlain img pts < 2 ^ 64 → ysumPlain img pts < 2 ^ 64 →
      comOf img pts =
        (((pts.map (fun p => p.1.toNat)).sum : ℚ) / (pts.length : ℚ),
         ((pts.map (fun p => p.2.toNat)).sum : ℚ) / (pts.length : ℚ))) := by
  constructor
  · intro img pts hm hx hy _
    exact comOf_formula img pts hm hx hy
  · intro img pts I0 huni hI hm hx hy
    rw [comOf_formula img pts hm hx hy]
    have hmass : massPlain img pts = I0 * pts.length := by
      unfold massPlain
      rw [List.map_congr_left (fun p hp => huni p hp)]
      simp [List.map_const', Nat.mul_comm]
    have hxs : xsumPlain img pts = I0 * (pts.map (fun p => p.1.toNat)).sum := by
      unfold xsumPlain
      rw [List.map_congr_left (fun p hp => by rw [huni p hp])]
      exact List.sum_map_mul_left pts (fun p => p.1.toNat) I0
    have hys : ysumPlain img pts = I0 * (pts.map (fun p => p.2.toNat)).sum := by
      unfold ysumPlain
      rw [List.map_congr_left (fun p hp => by rw [huni p hp])]
      exact List.sum_map_mul_left pts (fun p => p.2.toNat) I0
    rw [hmass, hxs, hys]
    have hI0 : ((I0 : ℚ)) ≠ 0 := by
      exact_mod_cast Nat.pos_iff_ne_zero.mp hI
    push_cast
    rw [mul_div_mul_left _ _ hI0, mul_div_mul_left _ _ hI0]
    rw [List.map_map, List.map_map]
    rfl

/-- Witness for C8 on a two-point object with uniform intensity 5: the
centroid is the plain average of the coordinates. -/
theorem claim_C8_witness :
    comOf (fun _ _ => 5) [((1 : ℤ), (2 : ℤ)), ((3 : ℤ), (4 : ℤ))] = (2, 3) := by
  have h := claim_C8_centroid.2 (fun _ _ => 5) [((1 : ℤ), (2 : ℤ)), ((3 : ℤ), (4 : ℤ))] 5
    (by decide) (by decide) (by decide) (by decide) (by decide)
  rw [h]
  norm_num [Int.toNat]

/-! ## Claim C9 -/

/-- Invariant of the selection loop fold: the running `minDist` only shrinks;
a stored candidate is always a qualifying object at exactly the stored
distance; an unassigned `centerObj` means no update happened; the final
`minDist` lower-bounds the distance of every qualifying object scanned; and a
candidate appearing from an unassigned start is strictly below the initial
`minDist`. -/
theorem selFold_inv (cen : ℚ × ℚ) (avg : ℚ) (l : List TObj) :
    ∀ (m : ℚ) (r : Option TObj),
    (∀ o, r = some o → avg < (o.pts.length : ℚ) ∧ m = dist2 cen o.com) →
    ((l.foldl (selStep cen avg) (m, r)).1 ≤ m)
    ∧ (∀ o, (l.foldl (selStep cen avg) (m, r)).2 = some o →
        avg < (o.pts.length : ℚ) ∧ (l.foldl (selStep cen avg) (m, r)).1 = dist2 cen o.com
        ∧ (o ∈ l ∨ r = some o))
    ∧ ((l.foldl (selStep cen avg) (m, r)).2 = none →
        r = none ∧ (l.foldl (selStep cen avg) (m, r)).1 = m)
    ∧ (∀ o' ∈ l, avg < (o'.pts.length : ℚ) →
        (l.foldl (selStep cen avg) (m, r)).1 ≤ dist2 cen o'.com)
    ∧ (∀ o, r = none → (l.foldl (selStep cen avg) (m, r)).2 = some o →
        (l.foldl (selStep cen avg) (m, r)).1 < m) := by
  induction l with
  | nil =>
    intro m r hr
    refine ⟨le_refl _, ?_, ?_, ?_, ?_⟩
    · intro o ho
      exact ⟨(hr o ho).1, (hr o ho).2.symm ▸ rfl, Or.inr ho⟩
    · intro _; exact ⟨by assumption, rfl⟩
    · intro o' ho'; exact absurd ho' (List.not_mem_nil o')
    · intro o hnone hsome
      rw [List.foldl_nil] at hsome
      rw [hnone] at hsome
      exact Option.noConfusion hsome
  | cons o l ih =>
    intro m r hr
    simp only [List.foldl_cons]
    by_cases hcond : dist2 cen o.com < m ∧ avg < (o.pts.length : ℚ)
    · have hstep : selStep cen avg (m, r) o = (dist2 cen o.com, some o) := by
        simp [selStep, hcond]
      rw [hstep]
      have hinit : ∀ o'', (some o : Option TObj) = some o'' →
          avg < (o''.pts.length : ℚ) ∧ dist2 cen o.com = dist2 cen o''.com := by
        intro o'' h''
        cases h''
        exact ⟨hcond.2, rfl⟩
      obtain ⟨ih1, ih2, ih3, ih4, ih5⟩ := ih (dist2 cen o.com) (some o) hinit
      refine ⟨le_trans ih1 (le_of_lt hcond.1), ?_, ?_, ?_, ?_⟩
      · intro o'' h''
        obtain ⟨ha, hb, hc⟩ := ih2 o'' h''
        refine ⟨ha, hb, Or.inl ?_⟩
        cases hc with
        | inl h => exact List.mem_cons_of_mem o h
        | inr h => cases h; exact List.mem_cons_self o l
      · intro hnone
        obtain ⟨habs, _⟩ := ih3 hnone
        exact Option.noConfusion habs
      · intro o' ho' hq
        cases List.mem_cons.mp ho' with
        | inl h => subst h; exact ih1
        | inr h => exact ih4 o' h hq
      · intro o'' _ _
        exact lt_of_le_of_lt ih1 hcond.1
    · have hstep : selStep cen avg (m, r) o = (m, r) := by
        simp only [selStep, if_neg hcond]
      rw [hstep]
      obtain ⟨ih1, ih2, ih3, ih4, ih5⟩ := ih m r hr
      refine ⟨ih1, ?_, ih3, ?_, ih5⟩
      · intro o'' h''
        obtain ⟨ha, hb, hc⟩ := ih2 o'' h''
        refine ⟨ha, hb, ?_⟩
        cases hc with
        | inl h => exact Or.inl (List.mem_cons_of_mem o h)
        | inr h => exact Or.inr h
      · intro o' ho' hq
        cases List.mem_cons.mp ho' with
        | inl h =>
          subst h
          have hnd : ¬ dist2 cen o'.com < m := fun hd => hcond ⟨hd, hq⟩
          exact le_trans ih1 (not_lt.mp hnd)
        | inr h => exact ih4 o' h hq

/-- C9 counterexample: on a 100-row × 10-column grid holding a 3-point object
whose centroid (column 5, row 96) lies farther from the image centre than the
image *width* (the loop's initial `minDist`) and a 1-point object, more than
one cluster remains after consolidation, the 3-point object is the unique
cluster above the mean size — yet no cluster is selected: the pipeline fails
with `UnboundLocalError` instead of selecting the qualifying cluster closest
to the centre. -/
theorem claim_C9_counterexample :
    getSpindleImg 100 10 tallImg tallMask = .error .unboundLocalError ∧
    1 < (consolidate (buildObjects (paddedPoints 100 10 tallMask))).length := by
  constructor
  · with_unfolding_all rfl
  · decide

/-- C9 amended: when exactly one cluster exists it is selected; when more than
one cluster remains and some cluster both exceeds the mean size and has its
centroid strictly closer to the image centre than the image width (the loop's
initial `minDist`, compared here as squares), the selected cluster is a
qualifying one whose centroid distance is minimal among all qualifying
clusters.  (Without such a cluster the selection fails — see the
counterexample.) -/
theorem claim_C9_selection :
    (∀ (w h : Nat) (o : TObj), selectSpindle w h [o] = .ok o)
    ∧ (∀ (w h : Nat) (objs : List TObj), 1 < objs.length →
      (∃ o ∈ objs, meanSize objs < (o.pts.length : ℚ) ∧
        dist2 (imgCen w h) o.com < (w : ℚ) ^ 2) →
      ∃ o, selectSpindle w h objs = .ok o ∧ o ∈ objs ∧
        meanSize objs < (o.pts.length : ℚ) ∧
        dist2 (imgCen w h) o.com < (w : ℚ) ^ 2 ∧
        ∀ o' ∈ objs, meanSize objs < (o'.pts.length : ℚ) →
          dist2 (imgCen w h) o.com ≤ dist2 (imgCen w h) o'.com) := by
  constructor
  · intro w h o
    rfl
  · intro w h objs hlen ⟨ow, how, hwq, hwd⟩
    obtain ⟨i1, i2, i3, i4, i5⟩ :=
      selFold_inv (imgCen w h) (meanSize objs) objs ((w : ℚ) ^ 2) none
        (fun o ho => Option.noConfusion ho)
    cases hst : (objs.foldl (selStep (imgCen w h) (meanSize objs)) (((w : ℚ) ^ 2, none))).2 with
    | none =>
      obtain ⟨_, hm⟩ := i3 hst
      have := i4 ow how hwq
      rw [hm] at this
      exact absurd hwd (not_lt.mpr this)
    | some o =>
      obtain ⟨hq, hdist, hmem⟩ := i2 o hst
      have homem : o ∈ objs := by
        cases hmem with
        | inl hh => exact hh
        | inr hh => exact Option.noConfusion hh
      have hlt : (objs.foldl (selStep (imgCen w h) (meanSize objs)) (((w : ℚ) ^ 2, none))).1
          < (w : ℚ) ^ 2 := i5 o rfl hst
      refine ⟨o, ?_, homem, hq, hdist ▸ hlt, ?_⟩
      · unfold selectSpindle
        rw [if_pos hlen, hst]
      · intro o' ho' hq'
        exact hdist ▸ i4 o' ho' hq'

/-- Witness for the amended C9 on a two-object list where the larger object is
closest to the centre and strictly within one image-width of it. -/
theorem claim_C9_witness :
    ∃ o, selectSpindle 10 100 [bigObj, smallObj] = .ok o ∧ o ∈ [bigObj, smallObj] ∧
      meanSize [bigObj, smallObj] < (o.pts.length : ℚ) ∧
      dist2 (imgCen 10 100) o.com < (10 : ℚ) ^ 2 ∧
      ∀ o' ∈ [bigObj, smallObj], meanSize [bigObj, smallObj] < (o'.pts.length : ℚ) →
        dist2 (imgCen 10 100) o.com ≤ dist2 (imgCen 10 100) o'.com :=
  claim_C9_selection.2 10 100 [bigObj, smallObj] (by decide) (by with_unfolding_all decide)

/-! ## Claim C6 -/

theorem natAbs_sub_swap (a b : ℤ) : (a - b).natAbs = (b - a).natAbs := by
  rw [← Int.natAbs_neg (a - b), neg_sub]

theorem touches10_iff (o1 o2 : List Point) :
    touches10 o1 o2 = true ↔
      ∃ p ∈ o1, ∃ q ∈ o2, (q.1 - p.1).natAbs < 10 ∧ (q.2 - p.2).natAbs < 10 := by
  simp [touches10, List.any_eq_true, List.mem_reverse]

theorem touches10_symm (o1 o2 : List Point) (h : touches10 o1 o2 = true) :
    touches10 o2 o1 = true := by
  rw [touches10_iff] at h ⊢
  obtain ⟨p, hp, q, hq, h1, h2⟩ := h
  refine ⟨q, hq, p, hp, ?_, ?_⟩
  · rw [natAbs_sub_swap]; exact h1
  · rw [natAbs_sub_swap]; exact h2

theorem merge_same_grp (A B : List Point)
    (hAB : ∀ p ∈ A, ∀ q ∈ B, ¬((q.1 - p.1).natAbs < 10 ∧ (q.2 - p.2).natAbs < 10))
    (c o2 : List Point) (ht : touches10 c o2 = true)
    (hc : (∀ p ∈ c, p ∈ A) ∨ (∀ p ∈ c, p ∈ B))
    (ho : (∀ p ∈ o2, p ∈ A) ∨ (∀ p ∈ o2, p ∈ B)) :
    (∀ p ∈ c ++ o2, p ∈ A) ∨ (∀ p ∈ c ++ o2, p ∈ B) := by
  rw [touches10_iff] at ht
  obtain ⟨p, hp, q, hq, hclose⟩ := ht
  cases hc with
  | inl hcA =>
    cases ho with
    | inl hoA =>
      refine Or.inl ?_
      intro x hx
      cases List.mem_append.mp hx with
      | inl h => exact hcA x h
      | inr h => exact hoA x h
    | inr hoB =>
      exact absurd hclose (hAB p (hcA p hp) q (hoB q hq))
  | inr hcB =>
    cases ho with
    | inl hoA =>
      refine absurd ?_ (hAB q (hoA q hq) p (hcB p hp))
      rw [natAbs_sub_swap (p.1) (q.1), natAbs_sub_swap (p.2) (q.2)]
      exact hclose
    | inr hoB =>
      refine Or.inr ?_
      intro x hx
      cases List.mem_append.mp hx with
      | inl h => exact hcB x h
      | inr h => exact hoB x h

theorem scanMerge_grp (A B : List Point)
    (hAB : ∀ p ∈ A, ∀ q ∈ B, ¬((q.1 - p.1).natAbs < 10 ∧ (q.2 - p.2).natAbs < 10))
    (c : List Point) (l : List (List Point)) :
    ((∀ p ∈ c, p ∈ A) ∨ (∀ p ∈ c, p ∈ B)) →
    (∀ o ∈ l, (∀ p ∈ o, p ∈ A) ∨ (∀ p ∈ o, p ∈ B)) →
    ((∀ p ∈ (scanMerge c l).1, p ∈ A) ∨ (∀ p ∈ (scanMerge c l).1, p ∈ B))
    ∧ (∀ o ∈ (scanMerge c l).2, (∀ p ∈ o, p ∈ A) ∨ (∀ p ∈ o, p ∈ B)) := by
  induction c, l using scanMerge.induct with
  | case1 c =>
    intro hc _
    exact ⟨hc, by simp [scanMerge]⟩
  | case2 c o2 h =>
    intro hc hl
    simp only [scanMerge, h, if_true]
    exact ⟨merge_same_grp A B hAB c o2 h hc (hl o2 (List.mem_cons_self o2 [])),
      by simp⟩
  | case3 c o2 h o3 rest' ih =>
    intro hc hl
    simp only [scanMerge, h, if_true]
    have hmerged := merge_same_grp A B hAB c o2 h hc (hl o2 (List.mem_cons_self _ _))
    have hrest' : ∀ o ∈ rest', (∀ p ∈ o, p ∈ A) ∨ (∀ p ∈ o, p ∈ B) := fun o ho =>
      hl o (List.mem_cons_of_mem _ (List.mem_cons_of_mem _ ho))
    obtain ⟨ih1, ih2⟩ := ih hmerged hrest'
    refine ⟨ih1, ?_⟩
    intro o ho
    cases List.mem_cons.mp ho with
    | inl hh => exact hh ▸ hl o3 (List.mem_cons_of_mem _ (List.mem_cons_self _ _))
    | inr hh => exact ih2 o hh
  | case4 c o2 rest h ih =>
    intro hc hl
    rw [scanMerge.eq_def]
    simp only [h]
    have hrest : ∀ o ∈ rest, (∀ p ∈ o, p ∈ A) ∨ (∀ p ∈ o, p ∈ B) := fun o ho =>
      hl o (List.mem_cons_of_mem _ ho)
    obtain ⟨ih1, ih2⟩ := ih hc hrest
    cases rest with
    | nil =>
      simp only [scanMerge]
      refine ⟨hc, ?_⟩
      intro o ho
      cases List.mem_cons.mp ho with
      | inl hh => exact hh ▸ hl o2 (List.mem_cons_self _ _)
      | inr hh => exact absurd hh (List.not_mem_nil o)
    | cons a l' =>
      refine ⟨ih1, ?_⟩
      intro o ho
      cases List.mem_cons.mp ho with
      | inl hh => exact hh ▸ hl o2 (List.mem_cons_self _ _)
      | inr hh => exact ih2 o hh

theorem onePassF_grp (A B : List Point)
    (hAB : ∀ p ∈ A, ∀ q ∈ B, ¬((q.1 - p.1).natAbs < 10 ∧ (q.2 - p.2).natAbs < 10))
    (f : Nat) : ∀ (l : List (List Point)),
    (∀ o ∈ l, (∀ p ∈ o, p ∈ A) ∨ (∀ p ∈ o, p ∈ B)) →
    ∀ o ∈ onePassF f l, (∀ p ∈ o, p ∈ A) ∨ (∀ p ∈ o, p ∈ B) := by
  induction f with
  | zero =>
    intro l hl
    cases l with
    | nil => intro o ho; exact absurd ho (List.not_mem_nil o)
    | cons c rest => exact hl
  | succ f ih =>
    intro l hl
    cases l with
    | nil => intro o ho; exact absurd ho (List.not_mem_nil o)
    | cons c rest =>
      simp only [onePassF]
      have hc := hl c (List.mem_cons_self _ _)
      have hrest : ∀ o ∈ rest, (∀ p ∈ o, p ∈ A) ∨ (∀ p ∈ o, p ∈ B) := fun o ho =>
        hl o (List.mem_cons_of_mem _ ho)
      obtain ⟨h1, h2⟩ := scanMerge_grp A B hAB c rest hc hrest
      intro o ho
      cases List.mem_cons.mp ho with
      | inl hh => exact hh ▸ h1
      | inr hh => exact ih (scanMerge c rest).2 h2 o hh

theorem consolidateLoopF_grp (A B : List Point)
    (hAB : ∀ p ∈ A, ∀ q ∈ B, ¬((q.1 - p.1).natAbs < 10 ∧ (q.2 - p.2).natAbs < 10))
    (f : Nat) : ∀ (l : List (List Point)),
    (∀ o ∈ l, (∀ p ∈ o, p ∈ A) ∨ (∀ p ∈ o, p ∈ B)) →
    ∀ o ∈ consolidateLoopF f l, (∀ p ∈ o, p ∈ A) ∨ (∀ p ∈ o, p ∈ B) := by
  induction f with
  | zero => intro l hl; exact hl
  | succ f ih =>
    intro l hl
    simp only [consolidateLoopF]
    by_cases hlen : (onePass l).length = l.length
    · rw [if_pos hlen]
      exact onePassF_grp A B hAB l.length l hl
    · rw [if_neg hlen]
      exact ih (onePass l) (onePassF_grp A B hAB l.length l hl)

/-- C6: the consolidation pass (stable descending sort, repeated pairwise
scans merging a later cluster into an earlier one when some pair of their
points is within `|Δrow| < 10 AND |Δcolumn| < 10`, iterated to a fixed point)
keeps separated groups separate and merges close groups.  Part 1: if every
input cluster lies within group `A` or within group `B` and every cross pair
differs by ≥ 10 in row or in column, then every consolidated cluster still
lies within `A` or within `B` (so the groups never share a cluster).  Part 2:
two clusters with some point pair within < 10 in both axes end as one cluster
holding exactly the points of both. -/
theorem claim_C6_consolidation :
    (∀ (A B : List Point) (objs : List (List Point)),
      (∀ p ∈ A, ∀ q ∈ B, ¬((q.1 - p.1).natAbs < 10 ∧ (q.2 - p.2).natAbs < 10)) →
      (∀ o ∈ objs, (∀ p ∈ o, p ∈ A) ∨ (∀ p ∈ o, p ∈ B)) →
      ∀ o ∈ consolidate objs, (∀ p ∈ o, p ∈ A) ∨ (∀ p ∈ o, p ∈ B))
    ∧ (∀ c1 c2 : List Point, touches10 c1 c2 = true →
      ∃ c, consolidate [c1, c2] = [c] ∧ c.Perm (c1 ++ c2)) := by
  constructor
  · intro A B objs hAB hobjs
    have hsorted : ∀ o ∈ sortByCountDesc objs, (∀ p ∈ o, p ∈ A) ∨ (∀ p ∈ o, p ∈ B) := by
      intro o ho
      exact hobjs o ((List.perm_insertionSort _ objs).mem_iff.mp ho)
    exact consolidateLoopF_grp A B hAB _ _ hsorted
  · intro c1 c2 ht
    have hpair : ∀ x y : List Point, touches10 x y = true → consolidateLoop [x, y] = [x ++ y] := by
      intro x y hxy
      simp [consolidateLoop, consolidateLoopF, onePass, onePassF, scanMerge, hxy]
    by_cases hord : c2.length ≤ c1.length
    · have hsort : sortByCountDesc [c1, c2] = [c1, c2] := by
        simp [sortByCountDesc, List.insertionSort, List.orderedInsert, hord]
      refine ⟨c1 ++ c2, ?_, List.Perm.refl _⟩
      rw [consolidate, hsort, hpair c1 c2 ht]
    · have hsort : sortByCountDesc [c1, c2] = [c2, c1] := by
        simp [sortByCountDesc, List.insertionSort, List.orderedInsert, hord]
      refine ⟨c2 ++ c1, ?_, List.perm_append_comm⟩
      rw [consolidate, hsort, hpair c2 c1 (touches10_symm c1 c2 ht)]

/-- Witness for C6: the groups `{(0,0),(1,0)}` and `{(30,30)}` stay separate,
and the clusters `[(0,0),(1,0)]` and `[(5,5)]` (closest pair `(1,0)`-`(5,5)`
within < 10 in both axes) merge into one. -/
theorem claim_C6_witness :
    (∀ o ∈ consolidate [[((0 : ℤ), (0 : ℤ)), (1, 0)], [((30 : ℤ), (30 : ℤ))]],
      (∀ p ∈ o, p ∈ [((0 : ℤ), (0 : ℤ)), (1, 0)]) ∨
        (∀ p ∈ o, p ∈ [((30 : ℤ), (30 : ℤ))]))
    ∧ ∃ c, consolidate [[((0 : ℤ), (0 : ℤ)), (1, 0)], [((5 : ℤ), (5 : ℤ))]] = [c] ∧
        c.Perm ([((0 : ℤ), (0 : ℤ)), (1, 0)] ++ [((5 : ℤ), (5 : ℤ))]) :=
  ⟨claim_C6_consolidation.1 [((0 : ℤ), (0 : ℤ)), (1, 0)] [((30 : ℤ), (30 : ℤ))]
      [[((0 : ℤ), (0 : ℤ)), (1, 0)], [((30 : ℤ), (30 : ℤ))]] (by decide) (by decide),
    claim_C6_consolidation.2 [((0 : ℤ), (0 : ℤ)), (1, 0)] [((5 : ℤ), (5 : ℤ))] (by decide)⟩
